import Mathlib

/-!
Shallow embedding of the placeholder scanning and path-resolution engine of
`source/json_funcs.hpp` (function `replaceJsonPlaceholder`, together with the
small accessor `getStringFromJson`), and proofs about it.

Strings are modelled as `List Char` (the C++ code works on `std::string` with
byte positions; all inputs of interest are ASCII, so character positions and
byte positions coincide).  The jansson value tree `json_t` is modelled by the
inductive type `Json`; the external jansson parsers (`json_loads`,
`json_load_file`) are passed in as parameters of type `String → Option Json`,
where `none` models a null `json_t*` (parse/load failure).

The C++ scan loop need not terminate (a resolved value can re-introduce a
placeholder ahead of the scan position), so the loop is embedded with an
explicit fuel parameter; the result type `Option (List Char)` uses `none` both
for fuel exhaustion and for an exception escaping the loop (`std::stoul`
throws on a segment with no digits), i.e. `none` means "the C++ function does
not return normally within the modelled budget".  Every terminating, exception
free run is reproduced exactly by a large enough fuel.
-/

/-- Model of a jansson `json_t` value: null, boolean, number, string,
array, object.  Numbers are modelled as integers (no claim depends on real
valued numbers).  Object entries keep insertion order; keys of the documents
used in the claims are distinct, so ordered association lists model the
jansson hash table faithfully. -/
inductive Json where
  | null
  | bool (b : Bool)
  | num (n : Int)
  | str (s : List Char)
  | arr (elems : List Json)
  | obj (entries : List (List Char × Json))

/-- Association-list lookup used to model jansson object access. -/
def jsonLookup : List (List Char × Json) → List Char → Option Json
  | [], _ => none
  | (k, v) :: rest, key => if k = key then some v else jsonLookup rest key

/-- Model of jansson `json_object_get(root, key)`: returns the value mapped to
`key` when `root` is an object containing it, and `none` (a null pointer)
otherwise — including when `root` is not an object at all. -/
def json_object_get : Json → List Char → Option Json
  | Json.obj entries, key => jsonLookup entries key
  | _, _ => none

/-- Model of jansson `json_array_get(arr, i)`: the `i`-th element, or `none`
(a null pointer) when `i` is out of range or the value is not an array. -/
def json_array_get : Json → Nat → Option Json
  | Json.arr elems, i => elems.get? i
  | _, _ => none

/-- The characters accepted as whitespace by `std::stoul` (C `isspace` in the
default locale). -/
def isCSpace (c : Char) : Bool :=
  c = ' ' || c = '\t' || c = '\n' || c = '\x0b' || c = '\x0c' || c = '\r'

/-- Numeric value of a decimal digit character. -/
def digitVal (c : Char) : Nat := c.toNat - '0'.toNat

/-- Decimal value of a digit string. -/
def digitsToNat (ds : List Char) : Nat :=
  ds.foldl (fun acc c => acc * 10 + digitVal c) 0

/-- `ULONG_MAX` on the 64-bit target (`size_t` and `unsigned long` are both
64 bits wide on the aarch64 Switch toolchain). -/
def ULONG_MAX : Nat := 2 ^ 64 - 1

/-- Magnitude-and-sign part of `std::stoul`: consumes leading decimal digits
of `l`; no digit at all models the `std::invalid_argument` throw, a magnitude
above `ULONG_MAX` models the `std::out_of_range` throw (both are `none`); a
leading minus sign wraps the value modulo `2 ^ 64` exactly as unsigned
negation does. -/
def stoulMag (l : List Char) (neg : Bool) : Option Nat :=
  let ds := l.takeWhile Char.isDigit
  if ds.isEmpty then none
  else
    let v := digitsToNat ds
    if ULONG_MAX < v then none
    else some (if neg then (2 ^ 64 - v) % 2 ^ 64 else v)

/-- Model of `std::stoul(s)` (base 10): skip C whitespace, accept one optional
sign, then require at least one decimal digit; trailing characters are
ignored.  `none` models a thrown exception. -/
def stoul (s : List Char) : Option Nat :=
  match s.dropWhile isCSpace with
  | '-' :: r => stoulMag r true
  | '+' :: r => stoulMag r false
  | r => stoulMag r false

/-- The pattern `pat` occurs in `s` exactly at position `i` (all of `pat`
matches, so in particular `i + pat.length ≤ s.length`). -/
def occursAt (s pat : List Char) (i : Nat) : Bool :=
  decide (List.take pat.length (List.drop i s) = pat)

/-- Model of `std::string::find(pat, start)`: the least position `i ≥ start`
at which `pat` fully occurs in `s`, or `none` for `npos`. -/
def findFrom (s pat : List Char) (start : Nat) : Option Nat :=
  (List.range (s.length + 1)).find? (fun i => decide (start ≤ i) && occursAt s pat i)

/-- The closer token `")}"` of a placeholder. -/
def closer : List Char := [')', '}']

/-- The opener token built at line 141 of the source:
`searchString = "{" + commandName + "("`. -/
def openerOf (cmd : List Char) : List Char := '{' :: (cmd ++ ['('])

/-- Model of `std::string::replace(pos, count, repl)` (with `count` clamped to
the end of the string, as in C++). -/
def replaceRange (s : List Char) (pos count : Nat) (repl : List Char) : List Char :=
  s.take pos ++ repl ++ s.drop (pos + count)

/-- Segment-extraction loop of lines 160–165 of the source, with an explicit
iteration bound `k` (each iteration advances `nextPos` by at least one, so
`k = endPos - nextPos` iterations always suffice; see `extractSegs`).  Note
that, exactly as in the source, the comma search `findFrom s [','] nextPos`
is NOT bounded by `endPos`: a comma occurring after the closer makes the last
segment run past the closer. -/
def extractSegsAux (s : List Char) (endPos : Nat) : Nat → Nat → List (List Char)
  | _, 0 => []
  | nextPos, k + 1 =>
    if nextPos < endPos then
      let len :=
        match findFrom s [','] nextPos with
        | some commaPos => commaPos - nextPos
        | none => endPos - nextPos
      (s.drop nextPos).take len :: extractSegsAux s endPos (nextPos + len + 1) k
    else []

/-- The `keysAndIndexes` list built from the placeholder starting at
`nextPos = startPos + searchString.length()` with closer at `endPos`
(lines 158–165 of the source). -/
def extractSegs (s : List Char) (endPos nextPos : Nat) : List (List Char) :=
  extractSegsAux s endPos nextPos (endPos - nextPos)

/-- Path-resolution loop of lines 167–179 of the source.  The input is the
current `value` pointer (`none` models a null `json_t*`) and the remaining
segments; the output is `none` when `std::stoul` throws (array segment with no
digits, or magnitude above `ULONG_MAX`), otherwise `some (value, validValue)`
with the final pointer and flag exactly as left by the C++ loop:

* object: `value = json_object_get(value, keyIndex)` and continue;
* array: `_index = std::stoul(keyIndex); value = json_array_get(value, _index)`;
* anything else (a scalar, null, or a null pointer) with a segment remaining:
  `validValue = false` and break. -/
def resolveSegs : Option Json → List (List Char) → Option (Option Json × Bool)
  | value, [] => some (value, true)
  | some (Json.obj entries), keyIndex :: rest =>
    resolveSegs (json_object_get (Json.obj entries) keyIndex) rest
  | some (Json.arr elems), keyIndex :: rest =>
    match stoul keyIndex with
    | none => none
    | some i => resolveSegs (json_array_get (Json.arr elems) i) rest
  | value, _ :: _ => some (value, false)

/-- Does a `Json` value satisfy jansson `json_is_string`? -/
def isStringJson : Json → Bool
  | Json.str _ => true
  | _ => false

/-- The `while (startPos != std::string::npos)` loop of lines 148–188 of the
source.  `popt` is the current value of `startPos` (`none` = `npos`); the
result is the final `replacement` string, or `none` when the fuel runs out or
`std::stoul` throws.  Per iteration, exactly as in the source:

1. `endPos = replacement.find(")}", startPos)`; `npos` breaks the loop;
2. the segments are extracted from `startPos + searchString.length()`;
3. the segments are resolved against `jsonDict`;
4. when `validValue && value != nullptr && json_is_string(value)`, the span
   `[startPos, endPos + 2)` is replaced by the string value;
5. `startPos = replacement.find(searchString, endPos)` on the (possibly
   modified) string — the search resumes from the ORIGINAL closer position. -/
def scanLoop (search : List Char) (doc : Json) : Nat → List Char → Option Nat → Option (List Char)
  | _, s, none => some s
  | 0, _, some _ => none
  | fuel + 1, s, some startPos =>
    match findFrom s closer startPos with
    | none => some s
    | some endPos =>
      match resolveSegs (some doc) (extractSegs s endPos (startPos + search.length)) with
      | none => none
      | some (value, validValue) =>
        let s' :=
          match validValue, value with
          | true, some (Json.str sv) => replaceRange s startPos (endPos - startPos + 2) sv
          | _, _ => s
        scanLoop search doc fuel s' (findFrom s' search endPos)

/-- Lines 136–195 of the source: the scanner given the already-obtained
`jsonDict` (`none` models a null pointer, for which the input is returned
unchanged at line 137).  `fuel` bounds the number of loop iterations; every
run of the C++ loop that terminates without throwing is reproduced exactly by
any sufficiently large fuel. -/
def replaceJsonPlaceholderRoot (fuel : Nat) (arg commandName : String)
    (jsonDict : Option Json) : Option String :=
  match jsonDict with
  | none => some arg
  | some doc =>
    let search := openerOf commandName.data
    (scanLoop search doc fuel arg.data (findFrom arg.data search 0)).map String.mk

/-- The full `replaceJsonPlaceholder(arg, commandName, jsonPathOrString)` of
lines 126–195.  The external jansson entry points are passed as parameters:
`stringToJson` models the `json_loads` wrapper used for the `json` /
`json_source` tags, `json_load_file` models the file loader used for the
`json_file` / `json_file_source` tags (`none` = null pointer = parse or load
failure).  Any other command tag never obtains a document. -/
def replaceJsonPlaceholder (fuel : Nat) (arg commandName jsonPathOrString : String)
    (stringToJson json_load_file : String → Option Json) : Option String :=
  let jsonDict : Option Json :=
    if commandName = "json" ∨ commandName = "json_source" then stringToJson jsonPathOrString
    else if commandName = "json_file" ∨ commandName = "json_file_source" then
      json_load_file jsonPathOrString
    else none
  replaceJsonPlaceholderRoot fuel arg commandName jsonDict

/-- Lines 199–207 of the source: `getStringFromJson(root, key)` returns the
character data of the string mapped to `key`, and the empty string when the
key is absent, the value is not a string, or `root` is not an object.  The
embedding is a pure total function: it never yields a null pointer and cannot
modify `root`. -/
def getStringFromJson (root : Json) (key : List Char) : List Char :=
  match json_object_get root key with
  | some (Json.str s) => s
  | _ => []

/-- Is the value an object or an array (the only variants a path segment can
descend into)? -/
def isContainer : Json → Bool
  | Json.obj _ => true
  | Json.arr _ => true
  | _ => false

/-- The jansson tree of the document `{"a":[10,20,30]}` of spec Example 2. -/
def jsonDocArrNum : Json :=
  Json.obj [("a".data, Json.arr [Json.num 10, Json.num 20, Json.num 30])]

/-- The jansson tree of the document `{"a":["10","20","30"]}` (Example 2 with
string-valued elements). -/
def jsonDocArrStr : Json :=
  Json.obj [("a".data, Json.arr [Json.str "10".data, Json.str "20".data, Json.str "30".data])]

/-- The jansson tree of the document `{"abcd":"x","k":"yz"}`. -/
def jsonDocTwoKeys : Json :=
  Json.obj [("abcd".data, Json.str "x".data), ("k".data, Json.str "yz".data)]

/-- The jansson tree of a document whose single key is the four characters
`a)} ` (legal JSON), mapped to the string `"GOTCHA"`. -/
def jsonDocOddKey : Json := Json.obj [("a)\x7d ".data, Json.str "GOTCHA".data)]

/-- The jansson tree of the document `{"a":5}` of spec Example 4. -/
def jsonDocNumA : Json := Json.obj [("a".data, Json.num 5)]

/-! Helper lemmas about `occursAt` and `findFrom`. -/

lemma findFrom_some_pred {s pat : List Char} {start i : Nat}
    (h : findFrom s pat start = some i) :
    start ≤ i ∧ occursAt s pat i = true := by
  have hp := List.find?_some h
  simpa using hp

lemma occursAt_add_le {s pat : List Char} {i : Nat} (hpat : pat ≠ [])
    (h : occursAt s pat i = true) : i + pat.length ≤ s.length := by
  unfold occursAt at h
  rw [decide_eq_true_eq] at h
  have h1 : (List.take pat.length (List.drop i s)).length = pat.length := by rw [h]
  have h2 : 1 ≤ pat.length := by
    cases pat with
    | nil => exact absurd rfl hpat
    | cons a t => simp
  rw [List.length_take, List.length_drop] at h1
  omega

lemma occursAt_getElem {s pat : List Char} {i j : Nat} (hj : j < pat.length)
    (h : occursAt s pat i = true) : s[i + j]? = pat[j]? := by
  unfold occursAt at h
  rw [decide_eq_true_eq] at h
  have h1 := congrArg (fun l => l[j]?) h
  simp only at h1
  rw [List.getElem?_take_of_lt hj, List.getElem?_drop] at h1
  exact h1

lemma findFrom_eq_none_of {s pat : List Char} {start : Nat}
    (h : ∀ i, start ≤ i → occursAt s pat i = false) :
    findFrom s pat start = none := by
  unfold findFrom
  rw [List.find?_eq_none]
  intro a _ hcontra
  rw [Bool.and_eq_true, decide_eq_true_eq] at hcontra
  obtain ⟨ha, hocc⟩ := hcontra
  rw [h a ha] at hocc
  exact Bool.false_ne_true hocc

lemma findFrom_none_imp {s pat : List Char} {start : Nat} (hpat : pat ≠ [])
    (h : findFrom s pat start = none) :
    ∀ i, start ≤ i → occursAt s pat i = false := by
  intro i hi
  by_cases hlen : i ≤ s.length
  · have hmem : i ∈ List.range (s.length + 1) := List.mem_range.mpr (by omega)
    have h1 := (List.find?_eq_none.mp h) i hmem
    rw [Bool.and_eq_true, decide_eq_true_eq] at h1
    push_neg at h1
    exact Bool.eq_false_iff.mpr (h1 hi)
  · unfold occursAt
    rw [decide_eq_false_iff_not]
    intro hcontra
    have hdrop : List.drop i s = [] := List.drop_eq_nil_of_le (by omega)
    rw [hdrop, List.take_nil] at hcontra
    exact hpat hcontra.symm

lemma take_replaceRange (s repl : List Char) (pos count q : Nat)
    (hq : q ≤ pos) (hpos : pos ≤ s.length) :
    (replaceRange s pos count repl).take q = s.take q := by
  unfold replaceRange
  rw [List.append_assoc]
  rw [List.take_append_of_le_length (by rw [List.length_take]; omega)]
  rw [List.take_take, Nat.min_eq_left hq]

/-- Positions before the current scan position are never touched again: if the
scan loop, started at a position `≥ q` (or at `npos`), returns normally, then
the first `q` characters of the result are the first `q` characters of the
input.  Every replacement the loop performs happens at the current opener
position, which only moves forward. -/
lemma scanLoop_take (search : List Char) (doc : Json) (q : Nat) :
    ∀ (fuel : Nat) (s : List Char) (popt : Option Nat) (out : List Char),
      (∀ p, popt = some p → q ≤ p) →
      scanLoop search doc fuel s popt = some out →
      out.take q = s.take q := by
  intro fuel
  induction fuel with
  | zero =>
    intro s popt out hge hrun
    cases popt with
    | none =>
      simp only [scanLoop, Option.some.injEq] at hrun
      rw [hrun]
    | some p => simp [scanLoop] at hrun
  | succ n ih =>
    intro s popt out hge hrun
    cases popt with
    | none =>
      simp only [scanLoop, Option.some.injEq] at hrun
      rw [hrun]
    | some p =>
      have hqp : q ≤ p := hge p rfl
      rw [scanLoop] at hrun
      cases hfind : findFrom s closer p with
      | none =>
        rw [hfind] at hrun
        simp only [Option.some.injEq] at hrun
        rw [hrun]
      | some endPos =>
        rw [hfind] at hrun
        simp only at hrun
        obtain ⟨hple, hocc⟩ := findFrom_some_pred hfind
        have hlen : endPos + closer.length ≤ s.length :=
          occursAt_add_le (by simp [closer]) hocc
        cases hres : resolveSegs (some doc) (extractSegs s endPos (p + search.length)) with
        | none => rw [hres] at hrun; exact absurd hrun (by simp)
        | some pr =>
          obtain ⟨value, validValue⟩ := pr
          rw [hres] at hrun
          simp only at hrun
          have hstep :
              ∀ s' : List Char, s'.take q = s.take q →
                scanLoop search doc n s' (findFrom s' search endPos) = some out →
                out.take q = s.take q := by
            intro s' hs' hrun'
            have hbound : ∀ p', findFrom s' search endPos = some p' → q ≤ p' := by
              intro p' hp'
              have := (findFrom_some_pred hp').1
              omega
            rw [← hs']
            exact ih s' (findFrom s' search endPos) out hbound hrun'
          cases validValue with
          | false => exact hstep s rfl hrun
          | true =>
            cases value with
            | none => exact hstep s rfl hrun
            | some v =>
              cases v with
              | str sv =>
                exact hstep (replaceRange s p (endPos - p + 2) sv)
                  (take_replaceRange s sv p (endPos - p + 2) q hqp (by simp [closer] at hlen; omega))
                  hrun
              | null => exact hstep s rfl hrun
              | bool b => exact hstep s rfl hrun
              | num m => exact hstep s rfl hrun
              | arr elems => exact hstep s rfl hrun
              | obj entries => exact hstep s rfl hrun

/-- An opener found at or after a closer position starts at least two
characters later: the characters at the closer position are `')'` and `'}'`,
while an opener starts with `'{'`. -/
lemma opener_after_closer {cmd s : List Char} {endPos p' : Nat}
    (hocc : occursAt s closer endPos = true)
    (hp' : findFrom s (openerOf cmd) endPos = some p') :
    endPos + 2 ≤ p' := by
  obtain ⟨hle, hopen⟩ := findFrom_some_pred hp'
  rcases (by omega : p' = endPos ∨ p' = endPos + 1 ∨ endPos + 2 ≤ p') with h | h | h
  · exfalso
    have h1 : s[p' + 0]? = (openerOf cmd)[0]? := occursAt_getElem (by simp [openerOf]) hopen
    have h2 : s[endPos + 0]? = closer[0]? := occursAt_getElem (by simp [closer]) hocc
    rw [h] at h1
    rw [h2] at h1
    simp [closer, openerOf] at h1
  · exfalso
    have h1 : s[p' + 0]? = (openerOf cmd)[0]? := occursAt_getElem (by simp [openerOf]) hopen
    have h2 : s[endPos + 1]? = closer[1]? := occursAt_getElem (by simp [closer]) hocc
    rw [h, Nat.add_zero] at h1
    rw [h2] at h1
    simp [closer, openerOf] at h1
  · exact h

/-- No closer can begin inside an opener occurrence when the command name
contains no `')'` character: every character of the opener `"{" + cmd + "("`
differs from `')'`. -/
lemma closer_not_in_opener {cmd s : List Char} {p : Nat} (hcmd : ')' ∉ cmd)
    (hopen : occursAt s (openerOf cmd) p = true) :
    ∀ i, p ≤ i → i < p + (openerOf cmd).length → occursAt s closer i = false := by
  intro i hip hlt
  cases hc : occursAt s closer i with
  | false => rfl
  | true =>
    exfalso
    have h1 : s[i + 0]? = closer[0]? := occursAt_getElem (by simp [closer]) hc
    have hj : i - p < (openerOf cmd).length := by omega
    have h2 : s[p + (i - p)]? = (openerOf cmd)[i - p]? := occursAt_getElem hj hopen
    rw [show p + (i - p) = i from by omega] at h2
    rw [Nat.add_zero] at h1
    rw [h1] at h2
    have h3 : ')' ∈ openerOf cmd := List.getElem?_mem h2.symm
    simp only [openerOf, List.mem_cons, List.mem_append] at h3
    rcases h3 with h3 | h3 | h3
    · exact absurd h3 (by decide)
    · exact hcmd h3
    · simp at h3

/-- The break of line 152 of the source, in general position: an opener at
`p` whose command contains no `')'`, with no closer occurrence anywhere at or
after the end of the opener, makes the scan loop stop at once and return the
current string unchanged. -/
lemma scanLoop_unterminated {cmd s : List Char} {p : Nat} (doc : Json) (fuel : Nat)
    (hcmd : ')' ∉ cmd)
    (hopen : occursAt s (openerOf cmd) p = true)
    (hclose : findFrom s closer (p + (openerOf cmd).length) = none) :
    scanLoop (openerOf cmd) doc (fuel + 1) s (some p) = some s := by
  have hnone : findFrom s closer p = none := by
    apply findFrom_eq_none_of
    intro i hi
    by_cases hge : p + (openerOf cmd).length ≤ i
    · exact findFrom_none_imp (by simp [closer]) hclose i hge
    · exact closer_not_in_opener hcmd hopen i hi (by omega)
  rw [scanLoop, hnone]

/-! Claim theorems. -/

/-- C1: the claim says that after substituting a resolved placeholder the scan
resumes immediately after the replacement's end, so that all placeholders are
replaced independently even when resolved values differ in length from the
placeholder text.  The code instead resumes at the original closer position
(`startPos = replacement.find(searchString, endPos)` at line 187 of the
source): with document `{"abcd":"x","k":"yz"}`, the input
`"{json(abcd)}{json(k)}"` yields `"x{json(k)}"` — the first replacement is
shorter than its placeholder, the stale resume position lies beyond the second
opener in the shifted string, and the second placeholder is silently skipped
instead of being replaced to give `"xyz"`. -/
theorem c1_scan_resumes_at_stale_closer :
    replaceJsonPlaceholder 5 "{json(abcd)}{json(k)}" "json" "src"
      (fun _ => some jsonDocTwoKeys) (fun _ => none) = some "x{json(k)}" := by
  rfl

/-- C2: the claim says an array segment that does not parse as an unsigned
integer yields NotFound, the placeholder is left untouched, and no exception
crosses the scanner's boundary.  The code calls `std::stoul(keyIndex)` at line
173 with no handler: on document `{"a":[10,20,30]}` and input `"{json(a,x)}"`
the segment `"x"` has no digits, `std::stoul` throws `std::invalid_argument`,
and `replaceJsonPlaceholder` does not return normally (modelled as `none`). -/
theorem c2_stoul_exception_escapes :
    replaceJsonPlaceholder 4 "{json(a,x)}" "json" "src"
      (fun _ => some jsonDocArrNum) (fun _ => none) = none := by
  rfl

/-- C3 counterexample: with the document `{"a":[10,20,30]}` supplied as the
root and command `f`, substituting `"{f(a,1)}"` does NOT return `"20"`: the
path resolves to the JSON number `20`, which fails the `json_is_string` check
at line 181 of the source, so the placeholder is left byte-for-byte unchanged
(consistent with spec §4.1 and Example 4, which Example 2 contradicts). -/
theorem c3_number_element_not_substituted :
    replaceJsonPlaceholderRoot 4 "{f(a,1)}" "f" (some jsonDocArrNum) = some "{f(a,1)}" ∧
    replaceJsonPlaceholderRoot 4 "{f(a,1)}" "f" (some jsonDocArrNum) ≠ some "20" := by
  exact ⟨rfl, by decide⟩

/-- C3 amended: with the array elements stored as JSON strings,
`{"a":["10","20","30"]}`, the element at array index 1 is substituted for the
placeholder and the output is `"20"`. -/
theorem c3_amended_string_element_substituted :
    replaceJsonPlaceholderRoot 4 "{f(a,1)}" "f" (some jsonDocArrStr) = some "20" := by
  rfl

/-- C4: the claim says characters at or beyond the closer `)}` never become
part of any segment, regardless of commas occurring later in the input.  The
comma search at line 161 of the source is not bounded by the closer position:
on input `"{json(a)} , x"` (comma after the closer) the single extracted
segment is the four characters `a)} `, not `a`.  With a document mapping that
very key to `"GOTCHA"`, the placeholder resolves and the output is
`"GOTCHA , x"`, where the claim requires the body to be `a` (absent from the
document) and the output to be the unchanged input. -/
theorem c4_comma_after_closer_leaks_into_segment :
    extractSegs "{json(a)} , x".data 7 6 = ["a)\x7d ".data] ∧
    replaceJsonPlaceholder 4 "{json(a)} , x" "json" "src"
      (fun _ => some jsonDocOddKey) (fun _ => none) = some "GOTCHA , x" := by
  exact ⟨rfl, rfl⟩

/-- C5: a well-formed placeholder (opener at `p`, closer at `endPos`) whose
full path resolves to a non-string JSON value leaves the string untouched in
that iteration and the scan continues with the search for the next opener
(first conjunct); moreover, whenever the whole scan then returns normally, the
first `endPos + 2` characters of the output — which include the placeholder
substring `[p, endPos + 2)` — are byte-for-byte those of the input, so the
placeholder is unchanged in the final output (second conjunct). -/
theorem c5_nonstring_resolution_leaves_placeholder
    (cmd : List Char) (doc : Json) (fuel : Nat) (s : List Char) (p endPos : Nat) (v : Json)
    (hclose : findFrom s closer p = some endPos)
    (hres : resolveSegs (some doc) (extractSegs s endPos (p + (openerOf cmd).length)) =
      some (some v, true))
    (hns : isStringJson v = false) :
    scanLoop (openerOf cmd) doc (fuel + 1) s (some p)
      = scanLoop (openerOf cmd) doc fuel s (findFrom s (openerOf cmd) endPos) ∧
    ∀ out, scanLoop (openerOf cmd) doc (fuel + 1) s (some p) = some out →
      out.take (endPos + 2) = s.take (endPos + 2) := by
  have hocc := (findFrom_some_pred hclose).2
  have hstep : scanLoop (openerOf cmd) doc (fuel + 1) s (some p)
      = scanLoop (openerOf cmd) doc fuel s (findFrom s (openerOf cmd) endPos) := by
    rw [scanLoop, hclose]
    simp only
    rw [hres]
    cases v with
    | str sv => simp [isStringJson] at hns
    | null => rfl
    | bool b => rfl
    | num n => rfl
    | arr elems => rfl
    | obj entries => rfl
  refine ⟨hstep, ?_⟩
  intro out hout
  rw [hstep] at hout
  exact scanLoop_take (openerOf cmd) doc (endPos + 2) fuel s
    (findFrom s (openerOf cmd) endPos) out
    (fun p' hp' => opener_after_closer hocc hp') hout

/-- C5 witness: on input `"{json(a)}z"` against `{"a":5}` the placeholder's
path resolves to the number 5 and the scan step leaves the string unchanged
and moves on. -/
theorem c5_witness :
    scanLoop (openerOf "json".data) jsonDocNumA 1 "{json(a)}z".data (some 0)
      = scanLoop (openerOf "json".data) jsonDocNumA 0 "{json(a)}z".data
          (findFrom "{json(a)}z".data (openerOf "json".data) 7) :=
  (c5_nonstring_resolution_leaves_placeholder "json".data jsonDocNumA 0
    "{json(a)}z".data 0 7 (Json.num 5) rfl rfl rfl).1

/-- C6: an opener occurrence (for a command containing no `')'`) with no
closer `)}` occurrence at or after the end of the opener makes the scan stop
entirely: the loop returns the current string — everything resolved in earlier
iterations — as is, so the remainder from that opener onward, including any
subsequent placeholders, is kept verbatim and never processed. -/
theorem c6_unterminated_placeholder_stops_scan
    {cmd s : List Char} {p : Nat} (doc : Json) (fuel : Nat)
    (hcmd : ')' ∉ cmd)
    (hopen : occursAt s (openerOf cmd) p = true)
    (hclose : findFrom s closer (p + (openerOf cmd).length) = none) :
    scanLoop (openerOf cmd) doc (fuel + 1) s (some p) = some s :=
  scanLoop_unterminated doc fuel hcmd hopen hclose

/-- C6 witness: `"ab{json(x"` has an opener at position 2 and no closer
anywhere after it; the scan returns the string unchanged. -/
theorem c6_witness :
    scanLoop (openerOf "json".data) Json.null 1 "ab\x7bjson(x".data (some 2)
      = some "ab\x7bjson(x".data :=
  c6_unterminated_placeholder_stops_scan Json.null 0 (by decide) (by decide) rfl

/-- C8: during path resolution the interpretation of a segment is decided by
the current value's variant, never by the segment's own syntax: on an object
the segment is always used as a key via `json_object_get` (even when it is
numeric text — the first conjunct places no condition on `keyIndex`); integer
parsing with `std::stoul` happens only when the current value is an array
(second conjunct); and applying a remaining segment to a value that is neither
object nor array ends resolution with `validValue = false` — the unresolved
outcome under which the scan leaves the placeholder unchanged (third
conjunct). -/
theorem c8_segment_interpretation_by_variant :
    (∀ (entries : List (List Char × Json)) (keyIndex : List Char) (rest : List (List Char)),
        resolveSegs (some (Json.obj entries)) (keyIndex :: rest)
          = resolveSegs (json_object_get (Json.obj entries) keyIndex) rest) ∧
    (∀ (elems : List Json) (keyIndex : List Char) (rest : List (List Char)),
        resolveSegs (some (Json.arr elems)) (keyIndex :: rest)
          = match stoul keyIndex with
            | none => none
            | some i => resolveSegs (json_array_get (Json.arr elems) i) rest) ∧
    (∀ v : Json, isContainer v = false →
      ∀ (keyIndex : List Char) (rest : List (List Char)),
        resolveSegs (some v) (keyIndex :: rest) = some (some v, false)) := by
  refine ⟨fun entries keyIndex rest => rfl, fun elems keyIndex rest => rfl, ?_⟩
  intro v hv keyIndex rest
  cases v with
  | obj entries => simp [isContainer] at hv
  | arr elems => simp [isContainer] at hv
  | null => rfl
  | bool b => rfl
  | num n => rfl
  | str sv => rfl

/-- C8 witness: the numeric-looking segment `"0"` applied to the scalar `7`
ends resolution as unresolved (`validValue = false`) with the scalar still in
hand. -/
theorem c8_witness :
    resolveSegs (some (Json.num 7)) ["0".data] = some (some (Json.num 7), false) :=
  c8_segment_interpretation_by_variant.2.2 (Json.num 7) rfl "0".data []

/-- C7: whenever the JSON root is unavailable — the command tag is none of the
four recognized JSON tags, the inline JSON string fails to parse, or the file
fails to load or parse — `replaceJsonPlaceholder` returns the input string
unchanged, for every input string and regardless of its placeholder content
(lines 126–138 of the source). -/
theorem c7_unavailable_root_is_noop
    (fuel : Nat) (arg commandName jsonPathOrString : String)
    (stringToJson json_load_file : String → Option Json)
    (h : (commandName ≠ "json" ∧ commandName ≠ "json_source" ∧
          commandName ≠ "json_file" ∧ commandName ≠ "json_file_source") ∨
         ((commandName = "json" ∨ commandName = "json_source") ∧
            stringToJson jsonPathOrString = none) ∨
         ((commandName = "json_file" ∨ commandName = "json_file_source") ∧
            json_load_file jsonPathOrString = none)) :
    replaceJsonPlaceholder fuel arg commandName jsonPathOrString
      stringToJson json_load_file = some arg := by
  rcases h with ⟨h1, h2, h3, h4⟩ | ⟨h1, h2⟩ | ⟨h1, h2⟩
  · simp only [replaceJsonPlaceholder]
    rw [if_neg (by simp [h1, h2]), if_neg (by simp [h3, h4])]
    rfl
  · rcases h1 with rfl | rfl <;>
    · simp only [replaceJsonPlaceholder]
      rw [if_pos (by simp), h2]
      rfl
  · rcases h1 with rfl | rfl <;>
    · simp only [replaceJsonPlaceholder]
      rw [if_neg (by simp), if_pos (by simp), h2]
      rfl

/-- C7 witness: the unrecognized tag `other` gets no document, so an input
full of placeholder syntax is returned identically even though the provided
parsers would succeed. -/
theorem c7_witness :
    replaceJsonPlaceholder 3 "{json(a)}{other(a)}" "other" "path"
      (fun _ => some jsonDocNumA) (fun _ => some jsonDocNumA) = some "{json(a)}{other(a)}" :=
  c7_unavailable_root_is_noop 3 "{json(a)}{other(a)}" "other" "path"
    (fun _ => some jsonDocNumA) (fun _ => some jsonDocNumA)
    (Or.inl ⟨by decide, by decide, by decide, by decide⟩)

/-- C9: for every input string with no occurrence of the opener
`{commandName(` at any position, `replaceJsonPlaceholder` returns the input
unchanged, whatever the document source yields; in particular running the
substitution again on an already fully-resolved string with no remaining
placeholders returns it unchanged again — a no-op. -/
theorem c9_no_opener_occurrence_noop
    (fuel : Nat) (arg commandName jsonPathOrString : String)
    (stringToJson json_load_file : String → Option Json)
    (h : ∀ i ≤ arg.data.length, occursAt arg.data (openerOf commandName.data) i = false) :
    replaceJsonPlaceholder fuel arg commandName jsonPathOrString
      stringToJson json_load_file = some arg := by
  have hnone : findFrom arg.data (openerOf commandName.data) 0 = none := by
    apply findFrom_eq_none_of
    intro i _
    by_cases hle : i ≤ arg.data.length
    · exact h i hle
    · unfold occursAt
      rw [decide_eq_false_iff_not]
      intro hcontra
      have hdrop : List.drop i arg.data = [] := List.drop_eq_nil_of_le (by omega)
      rw [hdrop, List.take_nil] at hcontra
      exact (by simp [openerOf] : openerOf commandName.data ≠ []) hcontra.symm
  have hroot : ∀ jsonDict : Option Json,
      replaceJsonPlaceholderRoot fuel arg commandName jsonDict = some arg := by
    intro jsonDict
    cases jsonDict with
    | none => rfl
    | some doc =>
      simp only [replaceJsonPlaceholderRoot]
      rw [hnone]
      simp only [scanLoop, Option.map_some']
  exact hroot _

/-- C9 witness: a string with commas, braces and parentheses but no opener
occurrence is returned unchanged even though the document is available and
the scan budget is positive. -/
theorem c9_witness :
    replaceJsonPlaceholder 3 "a, (b) {c} json" "json" "src"
      (fun _ => some jsonDocNumA) (fun _ => none) = some "a, (b) {c} json" :=
  c9_no_opener_occurrence_noop 3 "a, (b) {c} json" "json" "src"
    (fun _ => some jsonDocNumA) (fun _ => none) (by decide)

/-- C10: `getStringFromJson root key` returns the value's character data when
`root` maps `key` to a JSON string, and the empty string otherwise — when the
key is absent, when the value mapped to it is not a string, or when `root` is
not an object; being a total function into character lists, it can neither
produce a null pointer nor modify `root`. -/
theorem c10_getStringFromJson_spec (root : Json) (key : List Char) :
    (∀ s, json_object_get root key = some (Json.str s) → getStringFromJson root key = s) ∧
    ((∀ s, json_object_get root key ≠ some (Json.str s)) → getStringFromJson root key = []) := by
  constructor
  · intro s h
    unfold getStringFromJson
    rw [h]
  · intro h
    unfold getStringFromJson
    cases hv : json_object_get root key with
    | none => rfl
    | some v =>
      cases v with
      | str sv => exact absurd hv (h sv)
      | null => rfl
      | bool b => rfl
      | num n => rfl
      | arr elems => rfl
      | obj entries => rfl

/-- C10 witness: a present string key yields its character data; a missing key
on a document whose only value is a number yields the empty string. -/
theorem c10_witness :
    getStringFromJson (Json.obj [("k".data, Json.str "val".data)]) "k".data = "val".data ∧
    getStringFromJson jsonDocNumA "missing".data = [] :=
  ⟨(c10_getStringFromJson_spec (Json.obj [("k".data, Json.str "val".data)]) "k".data).1
      "val".data rfl,
   (c10_getStringFromJson_spec jsonDocNumA "missing".data).2
      (fun _ h => Option.noConfusion h)⟩
